import Mathlib

/-!
Shallow embedding of the batch audio normalizer in src/main.py.

The program invokes one external ffmpeg process per input file, scrapes the
diagnostic text stream of that process with two regular expressions, and
reports a running fraction-complete value across the whole batch.

Numeric time values are modelled as rationals. The external process and the
filesystem are modelled by their observable behaviour per file: the exception
raised when starting the process (if any), the lines of its diagnostic stream,
whether the expected output file exists after the process exits, and the exit
code.
-/

namespace NormalSound

/-- Numeric value of an ASCII digit character. -/
def digitVal (c : Char) : ℕ := c.toNat - 48

/-- Matches a regex fragment of two digit characters at the head of the input,
returning its numeric value and the rest of the input. -/
def twoDigits : List Char → Option (ℕ × List Char)
  | c1 :: c2 :: rest =>
      if c1.isDigit && c2.isDigit then some (10 * digitVal c1 + digitVal c2, rest)
      else none
  | _ => none

/-- Matches one literal character at the head of the input. -/
def expectChar (k : Char) : List Char → Option (List Char)
  | c :: rest => if c = k then some rest else none
  | [] => none

/-- Matches the regex fragment dd:dd:dd.dd at the head of the input. The four
numbers returned are the digit pairs: hours, minutes, whole seconds, and the
two fractional-second digits. The regex captures three groups, the third
being the string of the last four digits with the dot; its conversion by
Python float is seconds plus hundredths, applied in toSeconds below. -/
def matchTimestamp (l : List Char) : Option (ℕ × ℕ × ℕ × ℕ) :=
  match twoDigits l with
  | none => none
  | some (hh, l1) =>
  match expectChar ':' l1 with
  | none => none
  | some l2 =>
  match twoDigits l2 with
  | none => none
  | some (mm, l3) =>
  match expectChar ':' l3 with
  | none => none
  | some l4 =>
  match twoDigits l4 with
  | none => none
  | some (ss, l5) =>
  match expectChar '.' l5 with
  | none => none
  | some l6 =>
  match twoDigits l6 with
  | none => none
  | some (ff, _) => some (hh, mm, ss, ff)

/-- Matches a literal character sequence at the head of the input. -/
def matchLit : List Char → List Char → Option (List Char)
  | [], rest => some rest
  | _ :: _, [] => none
  | c :: cs, d :: ds => if d = c then matchLit cs ds else none

/-- Matches the whole pattern, the literal part followed by the timestamp, at
the head of the input. -/
def matchAt (lit : List Char) (l : List Char) : Option (ℕ × ℕ × ℕ × ℕ) :=
  (matchLit lit l).bind matchTimestamp

/-- Leftmost search of the pattern over a line, as re.search does: the first
position where the whole pattern matches wins. -/
def reSearch (lit : List Char) : List Char → Option (ℕ × ℕ × ℕ × ℕ)
  | [] => matchAt lit []
  | c :: rest =>
    match matchAt lit (c :: rest) with
    | some g => some g
    | none => reSearch lit rest

/-- Search for the pattern Duration: dd:dd:dd.dd in a line
(src/main.py line 74). -/
def duration_search (line : List Char) : Option (ℕ × ℕ × ℕ × ℕ) :=
  reSearch ("Duration: ".data) line

/-- Search for the pattern time=dd:dd:dd.dd in a line
(src/main.py line 82). -/
def time_search (line : List Char) : Option (ℕ × ℕ × ℕ × ℕ) :=
  reSearch ("time=".data) line

/-- Seconds value of the three captured groups, as computed at
src/main.py lines 76 to 80 and lines 84 to 86: float of the hours group times
3600, plus float of the minutes group times 60, plus float of the seconds
group, the latter being whole seconds plus hundredths. -/
def toSeconds (g : ℕ × ℕ × ℕ × ℕ) : ℚ :=
  (g.1 : ℚ) * 3600 + (g.2.1 : ℚ) * 60 + ((g.2.2.1 : ℚ) + (g.2.2.2 : ℚ) / 100)

/-- Python truthiness of the duration variable: None and 0.0 are falsy,
every other float is truthy. -/
def pyTruthy : Option ℚ → Bool
  | none => false
  | some d => decide (d ≠ 0)

/-- Update of the duration variable by one line, mirroring
src/main.py lines 74 to 80: the parsed value is stored only when the current
duration is falsy. -/
def lineDuration (dur : Option ℚ) (line : List Char) : Option ℚ :=
  match duration_search line with
  | some g => if pyTruthy dur then dur else some (toSeconds g)
  | none => dur

/-- Progress value possibly emitted for one line, mirroring
src/main.py lines 82 to 88, where dur is the duration variable after the
duration update of the same line. The d nonzero guard together with the
some pattern mirrors the truthiness test of the Python condition. -/
def lineProgress (total_files : ℕ) (i : ℕ) (dur : Option ℚ) (line : List Char) :
    Option ℚ :=
  match time_search line, dur with
  | some g, some d =>
      if d ≠ 0 then
        some ((toSeconds g / d) * (1 / (total_files : ℚ)) + ((i : ℚ) / (total_files : ℚ)))
      else none
  | _, _ => none

/-- Scan of the diagnostic stream of one file, mirroring the loop at
src/main.py lines 72 to 88: returns the list of progress values pushed to
progress_var for that file, in order. -/
def scanLoop (total_files : ℕ) (i : ℕ) : Option ℚ → List (List Char) → List ℚ
  | _, [] => []
  | dur, line :: rest =>
    match lineProgress total_files i (lineDuration dur line) line with
    | some p => p :: scanLoop total_files i (lineDuration dur line) rest
    | none => scanLoop total_files i (lineDuration dur line) rest

/-- Final value of the duration variable after scanning a stream. -/
def scanDur : Option ℚ → List (List Char) → Option ℚ
  | dur, [] => dur
  | dur, line :: rest => scanDur (lineDuration dur line) rest

/-- Fraction elapsed over duration possibly emitted for one line; the slot
mapping of lineProgress factors through this. -/
def lineFrac (dur : Option ℚ) (line : List Char) : Option ℚ :=
  match time_search line, dur with
  | some g, some d => if d ≠ 0 then some (toSeconds g / d) else none
  | _, _ => none

/-- List of elapsed-over-duration fractions emitted while scanning a stream. -/
def scanFracs : Option ℚ → List (List Char) → List ℚ
  | _, [] => []
  | dur, line :: rest =>
    match lineFrac (lineDuration dur line) line with
    | some x => x :: scanFracs (lineDuration dur line) rest
    | none => scanFracs (lineDuration dur line) rest

/-- Index of the last occurrence of a character in a list, as Python rfind,
with none for the absent case that Python reports as -1. -/
def rfindIdx (c : Char) : List Char → Option ℕ
  | [] => none
  | x :: xs =>
    match rfindIdx c xs with
    | some j => some (j + 1)
    | none => if x = c then some 0 else none

/-- Python os.path.basename for forward-slash paths: everything after the last
slash, the whole path when there is no slash. -/
def basename (p : List Char) : List Char :=
  match rfindIdx '/' p with
  | none => p
  | some s => p.drop (s + 1)

/-- Root part of Python os.path.splitext for forward-slash paths: the path up
to the last dot, provided that dot lies after the last slash and at least one
character of the base name before it is not a dot; otherwise the whole path. -/
def splitextRoot (p : List Char) : List Char :=
  match rfindIdx '.' p with
  | none => p
  | some dotIndex =>
    match rfindIdx '/' p with
    | none =>
      if ((p.drop 0).take (dotIndex - 0)).any (fun c => c ≠ '.') then p.take dotIndex else p
    | some s =>
      if s + 1 ≤ dotIndex then
        if ((p.drop (s + 1)).take (dotIndex - (s + 1))).any (fun c => c ≠ '.') then
          p.take dotIndex
        else p
      else p

/-- Python os.path.join of two forward-slash paths: the second when it is
absolute, otherwise the first, a separating slash when needed, and the
second. -/
def pathJoin (a b : List Char) : List Char :=
  if b.head? = some '/' then b
  else if a = [] ∨ a.getLast? = some '/' then a ++ b
  else a ++ '/' :: b

/-- Output path computation at src/main.py line 57: the output directory
joined with the base name of the input with its extension replaced by mp3. -/
def output_file (input_file : List Char) (output_dir : List Char) : List Char :=
  pathJoin output_dir (splitextRoot (basename input_file) ++ (".mp3").data)

/-- Argument list of the external process built at src/main.py lines 58 to 68.
The target loudness is a Python float rendered into the filter string by an
f-string; the rendering itself is not modelled, so the definition takes the
rendered text. -/
def command (ffmpeg_path : String) (input_file : String) (target_lufs : String)
    (out : String) : List String :=
  [ ffmpeg_path, "-y", "-i", input_file, "-af",
    "loudnorm=I=" ++ target_lufs ++ ":TP=-1:LRA=11",
    "-acodec", "libmp3lame", out ]

/-- Modelled from the spec, section 6: the external transcoder is invoked once
per file as binary, dash y, dash i, input, dash af, the loudnorm filter with
the target loudness, a true-peak ceiling fixed at -1 and a loudness-range
target fixed at 11, dash acodec, the mp3 codec name, output. -/
def loudnormFilterSpec (target : String) : String :=
  "loudnorm=I=" ++ target ++ (":TP=" ++ "-1") ++ (":LRA=" ++ "11")

/-- Modelled from the spec, section 6: the full argument list in the order the
spec gives. -/
def commandSpec (binary : String) (input : String) (target : String)
    (out : String) : List String :=
  [binary, "-y", "-i", input, "-af", loudnormFilterSpec target,
   "-acodec", "libmp3lame", out]

/-- Exceptions the per-file try block of src/main.py can be confronted with:
subprocess.Popen raises FileNotFoundError when the binary cannot be started,
while subprocess.CalledProcessError is the type named by the except clause at
line 96. -/
inductive PyError
  | fileNotFoundError
  | calledProcessError
deriving DecidableEq

/-- Whether the except clause at src/main.py line 96, which names
subprocess.CalledProcessError, catches the exception. -/
def isCaught : PyError → Bool
  | .calledProcessError => true
  | .fileNotFoundError => false

/-- Observable behaviour of the external process and the filesystem for one
input file: the exception raised when starting the process (if any), the lines
of the process diagnostic stream, whether the expected output file exists on
disk after the process exits, and the process exit code returned by wait,
which the source never consults. -/
structure FileSpec where
  exc : Option PyError
  stream : List (List Char)
  outputExists : Bool
  exitCode : ℤ
deriving DecidableEq

/-- Observable outcome of one call of normalize_audio: the progress values
pushed to progress_var in order, the per-file success notes in order, where
true is the success print for an existing output file and false the error
print for a missing one, and whether an exception escaped normalize_audio. -/
structure BatchResult where
  reports : List ℚ
  outcomes : List Bool
  raised : Bool
deriving DecidableEq

/-- Loop of src/main.py lines 55 to 99 from file index i on. An exception at
process start is caught only when the except clause matches its type;
otherwise it escapes and the remaining files and the final progress
assignment are skipped. After the last file, progress is set to 1.0. -/
def processFiles (total_files : ℕ) : ℕ → List FileSpec → BatchResult
  | _, [] => ⟨[1], [], false⟩
  | i, f :: rest =>
    match f.exc with
    | some e =>
      if isCaught e then processFiles total_files (i + 1) rest
      else ⟨[], [], true⟩
    | none =>
      ⟨scanLoop total_files i none f.stream ++ (processFiles total_files (i + 1) rest).reports,
       f.outputExists :: (processFiles total_files (i + 1) rest).outcomes,
       (processFiles total_files (i + 1) rest).raised⟩

/-- Model of normalize_audio at src/main.py lines 41 to 99, restricted to its
observable behaviour over the modelled inputs. -/
def normalize_audio (files : List FileSpec) : BatchResult :=
  processFiles files.length 0 files

end NormalSound

namespace NormalSound

theorem toSeconds_nonneg (g : ℕ × ℕ × ℕ × ℕ) : 0 ≤ toSeconds g := by
  unfold toSeconds
  positivity

theorem lineProgress_eq_map (N i : ℕ) (dur : Option ℚ) (line : List Char) :
    lineProgress N i dur line =
      (lineFrac dur line).map (fun x => x * (1 / (N : ℚ)) + (i : ℚ) / (N : ℚ)) := by
  unfold lineProgress lineFrac
  rcases h : time_search line with _ | g <;> rcases dur with _ | d <;> simp [h]
  by_cases hd : d = 0 <;> simp [hd]

theorem scanLoop_eq_map (N i : ℕ) (lines : List (List Char)) :
    ∀ dur : Option ℚ,
      scanLoop N i dur lines =
        (scanFracs dur lines).map (fun x => x * (1 / (N : ℚ)) + (i : ℚ) / (N : ℚ)) := by
  induction lines with
  | nil => intro dur; rfl
  | cons line rest ih =>
    intro dur
    unfold scanLoop scanFracs
    rw [lineProgress_eq_map]
    rcases h : lineFrac (lineDuration dur line) line with _ | x <;>
      simp [h, ih (lineDuration dur line)]

/-- Duration values reachable by the scanner are never negative. -/
def durOK (dur : Option ℚ) : Prop := ∀ d : ℚ, dur = some d → 0 ≤ d

theorem durOK_none : durOK none := by
  intro d h
  cases h

theorem lineDuration_durOK (dur : Option ℚ) (line : List Char) (h : durOK dur) :
    durOK (lineDuration dur line) := by
  unfold lineDuration
  rcases hs : duration_search line with _ | g
  · exact h
  · by_cases ht : pyTruthy dur <;> simp [ht]
    · exact h
    · intro d hd
      cases hd
      exact toSeconds_nonneg g

theorem lineFrac_nonneg (dur : Option ℚ) (line : List Char) (h : durOK dur)
    (x : ℚ) (hx : lineFrac dur line = some x) : 0 ≤ x := by
  unfold lineFrac at hx
  rcases hs : time_search line with _ | g <;> rw [hs] at hx
  · cases hx
  · rcases dur with _ | d
    · cases hx
    · by_cases hd : d = 0
      · simp [hd] at hx
      · simp [hd] at hx
        have hd0 : 0 ≤ d := h d rfl
        rw [← hx]
        exact div_nonneg (toSeconds_nonneg g) hd0

theorem scanFracs_nonneg (lines : List (List Char)) :
    ∀ dur : Option ℚ, durOK dur → ∀ x ∈ scanFracs dur lines, 0 ≤ x := by
  induction lines with
  | nil => intro dur _ x hx; cases hx
  | cons line rest ih =>
    intro dur hdur x hx
    have hdur2 : durOK (lineDuration dur line) := lineDuration_durOK dur line hdur
    unfold scanFracs at hx
    rcases h : lineFrac (lineDuration dur line) line with _ | y <;> rw [h] at hx
    · exact ih (lineDuration dur line) hdur2 x hx
    · rcases List.mem_cons.1 hx with h1 | h2
      · rw [h1]
        exact lineFrac_nonneg _ _ hdur2 y h
      · exact ih (lineDuration dur line) hdur2 x h2

theorem lineProgress_falsy (N i : ℕ) (dur : Option ℚ) (line : List Char)
    (h : pyTruthy dur = false) : lineProgress N i dur line = none := by
  unfold lineProgress
  rcases hs : time_search line with _ | g <;> rcases hd : dur with _ | d <;> simp
  subst hd
  unfold pyTruthy at h
  simp at h
  simp [h]

theorem scanLoop_falsy_congr (N i : ℕ) (lines : List (List Char)) :
    ∀ dur1 dur2 : Option ℚ, pyTruthy dur1 = false → pyTruthy dur2 = false →
      scanLoop N i dur1 lines = scanLoop N i dur2 lines := by
  induction lines with
  | nil => intro dur1 dur2 _ _; rfl
  | cons line rest ih =>
    intro dur1 dur2 h1 h2
    unfold scanLoop
    rcases hs : duration_search line with _ | g
    · have e1 : lineDuration dur1 line = dur1 := by unfold lineDuration; rw [hs]
      have e2 : lineDuration dur2 line = dur2 := by unfold lineDuration; rw [hs]
      rw [e1, e2, lineProgress_falsy N i dur1 line h1, lineProgress_falsy N i dur2 line h2]
      exact ih dur1 dur2 h1 h2
    · have e1 : lineDuration dur1 line = some (toSeconds g) := by
        unfold lineDuration; rw [hs, h1]; simp
      have e2 : lineDuration dur2 line = some (toSeconds g) := by
        unfold lineDuration; rw [hs, h2]; simp
      rw [e1, e2]

theorem slot_mono (N i : ℕ) (x y : ℚ) (h : x ≤ y) :
    x * (1 / (N : ℚ)) + (i : ℚ) / (N : ℚ) ≤ y * (1 / (N : ℚ)) + (i : ℚ) / (N : ℚ) := by
  have hN : (0 : ℚ) ≤ 1 / (N : ℚ) := by positivity
  exact add_le_add_right (mul_le_mul_of_nonneg_right h hN) _

theorem slot_lb (N i : ℕ) (x : ℚ) (hx : 0 ≤ x) :
    (i : ℚ) / (N : ℚ) ≤ x * (1 / (N : ℚ)) + (i : ℚ) / (N : ℚ) := by
  have h0 : (0 : ℚ) ≤ x * (1 / (N : ℚ)) := by positivity
  linarith

theorem slot_ub (N i : ℕ) (hN : 0 < N) (x : ℚ) (hx : x < 1) :
    x * (1 / (N : ℚ)) + (i : ℚ) / (N : ℚ) < ((i : ℚ) + 1) / (N : ℚ) := by
  have hN2 : (0 : ℚ) < (N : ℚ) := by exact_mod_cast hN
  have h1 : x * (1 / (N : ℚ)) < 1 * (1 / (N : ℚ)) :=
    mul_lt_mul_of_pos_right hx (one_div_pos.mpr hN2)
  rw [one_mul] at h1
  rw [add_div]
  linarith

theorem cast_succ_div_le (N i : ℕ) (h : (i : ℚ) ≤ ((i : ℚ) + 1)) :
    (i : ℚ) / (N : ℚ) ≤ ((i : ℚ) + 1) / (N : ℚ) := by
  rcases Nat.eq_zero_or_pos N with h0 | h0
  · simp [h0]
  · have hN2 : (0 : ℚ) < (N : ℚ) := by exact_mod_cast h0
    gcongr

theorem processFiles_chain (N : ℕ) (hN : 0 < N) :
    ∀ (fs : List FileSpec) (i : ℕ), i + fs.length ≤ N →
      (∀ f ∈ fs, ∀ x ∈ scanFracs none f.stream, x < 1) →
      (∀ f ∈ fs, List.Chain' (· ≤ ·) (scanFracs none f.stream)) →
      List.Chain' (· ≤ ·) (processFiles N i fs).reports ∧
        ∀ p ∈ (processFiles N i fs).reports, (i : ℚ) / (N : ℚ) ≤ p ∧ p ≤ 1 := by
  intro fs
  induction fs with
  | nil =>
    intro i hle _ _
    have hiN : i ≤ N := by simpa using hle
    constructor
    · simp [processFiles]
    · intro p hp
      simp [processFiles] at hp
      subst hp
      refine ⟨?_, le_refl 1⟩
      rw [div_le_one (by exact_mod_cast hN)]
      exact_mod_cast hiN
  | cons f fs ih =>
    intro i hle hfrac hchain
    have hlen : i + (fs.length + 1) ≤ N := by simpa [List.length_cons] using hle
    have hle2 : (i + 1) + fs.length ≤ N := by omega
    have hfrac2 : ∀ g ∈ fs, ∀ x ∈ scanFracs none g.stream, x < 1 :=
      fun g hg => hfrac g (List.mem_cons_of_mem f hg)
    have hchain2 : ∀ g ∈ fs, List.Chain' (· ≤ ·) (scanFracs none g.stream) :=
      fun g hg => hchain g (List.mem_cons_of_mem f hg)
    have IH := ih (i + 1) hle2 hfrac2 hchain2
    have hstep : (i : ℚ) / (N : ℚ) ≤ (((i + 1 : ℕ)) : ℚ) / (N : ℚ) := by
      have hcast : (((i + 1 : ℕ)) : ℚ) = (i : ℚ) + 1 := by push_cast; ring
      rw [hcast]
      exact cast_succ_div_le N i (by linarith)
    rcases hexc : f.exc with _ | e
    · have hrw : processFiles N i (f :: fs) =
          ⟨scanLoop N i none f.stream ++ (processFiles N (i + 1) fs).reports,
           f.outputExists :: (processFiles N (i + 1) fs).outcomes,
           (processFiles N (i + 1) fs).raised⟩ := by
        simp [processFiles, hexc]
      rw [hrw]
      dsimp only
      constructor
      · rw [scanLoop_eq_map]
        apply List.Chain'.append
        · rw [List.chain'_map]
          apply List.Chain'.imp _ (hchain f (List.mem_cons_self f fs))
          intro a b hab
          exact slot_mono N i a b hab
        · exact IH.1
        · intro x hx y hy
          rcases List.mem_map.1 (List.mem_of_mem_getLast? hx) with ⟨a, ha, rfl⟩
          have ha1 : a < 1 := hfrac f (List.mem_cons_self f fs) a ha
          have hlt := slot_ub N i hN a ha1
          have hyb := (IH.2 y (List.mem_of_mem_head? hy)).1
          have hcast : (((i + 1 : ℕ)) : ℚ) = (i : ℚ) + 1 := by push_cast; ring
          rw [hcast] at hyb
          linarith
      · intro p hp
        rw [scanLoop_eq_map] at hp
        rcases List.mem_append.1 hp with h1 | h2
        · rcases List.mem_map.1 h1 with ⟨a, ha, rfl⟩
          have ha0 : 0 ≤ a := scanFracs_nonneg f.stream none durOK_none a ha
          have ha1 : a < 1 := hfrac f (List.mem_cons_self f fs) a ha
          refine ⟨slot_lb N i a ha0, ?_⟩
          have hub := slot_ub N i hN a ha1
          have hii : i + 1 ≤ N := by omega
          have hone : ((i : ℚ) + 1) / (N : ℚ) ≤ 1 := by
            rw [div_le_one (by exact_mod_cast hN)]
            exact_mod_cast hii
          linarith
        · have hb := IH.2 p h2
          exact ⟨le_trans hstep hb.1, hb.2⟩
    · by_cases hc : isCaught e = true
      · have hrw : processFiles N i (f :: fs) = processFiles N (i + 1) fs := by
          simp [processFiles, hexc, hc]
        rw [hrw]
        refine ⟨IH.1, ?_⟩
        intro p hp
        have hb := IH.2 p hp
        exact ⟨le_trans hstep hb.1, hb.2⟩
      · have hrw : processFiles N i (f :: fs) = ⟨[], [], true⟩ := by
          simp [processFiles, hexc, hc]
        rw [hrw]
        constructor
        · simp
        · intro p hp
          simp at hp

theorem processFiles_last (N : ℕ) :
    ∀ (fs : List FileSpec) (i : ℕ),
      (∀ f ∈ fs, f.exc.all isCaught = true) →
      (processFiles N i fs).reports.getLast? = some 1 ∧
        (processFiles N i fs).raised = false := by
  intro fs
  induction fs with
  | nil => intro i _; exact ⟨rfl, rfl⟩
  | cons f fs ih =>
    intro i h
    have hf := h f (List.mem_cons_self f fs)
    have h2 : ∀ g ∈ fs, g.exc.all isCaught = true :=
      fun g hg => h g (List.mem_cons_of_mem f hg)
    have IH := ih (i + 1) h2
    rcases hexc : f.exc with _ | e
    · have hrw : processFiles N i (f :: fs) =
          ⟨scanLoop N i none f.stream ++ (processFiles N (i + 1) fs).reports,
           f.outputExists :: (processFiles N (i + 1) fs).outcomes,
           (processFiles N (i + 1) fs).raised⟩ := by
        simp [processFiles, hexc]
      rw [hrw]
      dsimp only
      refine ⟨?_, IH.2⟩
      have hne : (processFiles N (i + 1) fs).reports ≠ [] := by
        intro hnil
        have := IH.1
        rw [hnil] at this
        simp at this
      rw [List.getLast?_append_of_ne_nil _ hne]
      exact IH.1
    · have hc : isCaught e = true := by
        rw [hexc] at hf
        simpa using hf
      have hrw : processFiles N i (f :: fs) = processFiles N (i + 1) fs := by
        simp [processFiles, hexc, hc]
      rw [hrw]
      exact IH

theorem processFiles_outcomes (N : ℕ) :
    ∀ (fs : List FileSpec) (i : ℕ), (∀ f ∈ fs, f.exc = none) →
      (processFiles N i fs).outcomes = fs.map FileSpec.outputExists := by
  intro fs
  induction fs with
  | nil => intro i _; rfl
  | cons f fs ih =>
    intro i h
    have hf := h f (List.mem_cons_self f fs)
    have h2 : ∀ g ∈ fs, g.exc = none := fun g hg => h g (List.mem_cons_of_mem f hg)
    have hrw : processFiles N i (f :: fs) =
        ⟨scanLoop N i none f.stream ++ (processFiles N (i + 1) fs).reports,
         f.outputExists :: (processFiles N (i + 1) fs).outcomes,
         (processFiles N (i + 1) fs).raised⟩ := by
      simp [processFiles, hf]
    rw [hrw]
    dsimp only
    rw [ih (i + 1) h2]
    rfl

theorem rfindIdx_eq_none (c : Char) (l : List Char) (h : c ∉ l) : rfindIdx c l = none := by
  induction l with
  | nil => rfl
  | cons x xs ih =>
    rw [List.mem_cons, not_or] at h
    have hx : x ≠ c := fun he => h.1 he.symm
    unfold rfindIdx
    rw [ih h.2]
    simp [hx]

theorem rfindIdx_append_none (c : Char) (l1 l2 : List Char) (h : c ∉ l2) :
    rfindIdx c (l1 ++ l2) = rfindIdx c l1 := by
  induction l1 with
  | nil => simpa using rfindIdx_eq_none c l2 h
  | cons x xs ih =>
    simp only [List.cons_append]
    unfold rfindIdx
    rw [ih]

/-- Claim C1 fails on the code as stated: for the sole file of a batch of 1
whose stream reports a time of two minutes against a duration of one minute,
the progress value pushed is 2, outside the half-open unit slot of the file,
and the full report sequence 2 followed by the final 1.0 is decreasing. -/
theorem progress_slot_counterexample :
    (normalize_audio
        [⟨none, ["Duration: 00:01:00.00".data, "time=00:02:00.00".data], true, 0⟩]).reports
      = [2, 1]
    ∧ ¬ ((2 : ℚ) < ((0 : ℚ) + 1) / ((1 : ℕ) : ℚ))
    ∧ ¬ List.Chain' (· ≤ ·)
        (normalize_audio
          [⟨none, ["Duration: 00:01:00.00".data, "time=00:02:00.00".data], true, 0⟩]).reports := by
  have h1 : duration_search ("Duration: 00:01:00.00".data) = some (0, 1, 0, 0) := by decide
  have h2 : time_search ("Duration: 00:01:00.00".data) = none := by decide
  have h3 : duration_search ("time=00:02:00.00".data) = none := by decide
  have h4 : time_search ("time=00:02:00.00".data) = some (0, 2, 0, 0) := by decide
  have hs : (normalize_audio
      [⟨none, ["Duration: 00:01:00.00".data, "time=00:02:00.00".data], true, 0⟩]).reports
      = [2, 1] := by
    norm_num [normalize_audio, processFiles, scanLoop, lineDuration, lineProgress,
      h1, h2, h3, h4, pyTruthy, toSeconds]
  refine ⟨hs, by norm_num, ?_⟩
  rw [hs]
  intro hchain
  have h21 : (2 : ℚ) ≤ 1 := List.chain'_cons.1 hchain |>.1
  linarith

/-- Claim C1 (amended): provided every elapsed-over-duration fraction emitted
while scanning a file stream is below 1, every progress value reported while
processing the file at index i of N lies in the half-open slot from i over N
to i plus 1 over N; provided additionally those fractions are nondecreasing
within each file stream, the whole sequence of progress values reported by
normalize_audio is monotonically nondecreasing. -/
theorem progress_slots_and_monotone (files : List FileSpec)
    (hfrac : ∀ f ∈ files, ∀ x ∈ scanFracs none f.stream, x < 1)
    (hchain : ∀ f ∈ files, List.Chain' (· ≤ ·) (scanFracs none f.stream)) :
    (∀ i : ℕ, ∀ hi : i < files.length,
        ∀ p ∈ scanLoop files.length i none ((files.get ⟨i, hi⟩).stream),
          (i : ℚ) / (files.length : ℚ) ≤ p ∧ p < ((i : ℚ) + 1) / (files.length : ℚ))
    ∧ List.Chain' (· ≤ ·) (normalize_audio files).reports := by
  constructor
  · intro i hi p hp
    have hN : 0 < files.length := lt_of_le_of_lt (Nat.zero_le i) hi
    have hmem : files.get ⟨i, hi⟩ ∈ files := files.get_mem i hi
    rw [scanLoop_eq_map] at hp
    rcases List.mem_map.1 hp with ⟨a, ha, rfl⟩
    have ha0 : 0 ≤ a := scanFracs_nonneg _ none durOK_none a ha
    have ha1 : a < 1 := hfrac _ hmem a ha
    exact ⟨slot_lb files.length i a ha0, slot_ub files.length i hN a ha1⟩
  · rcases files with _ | ⟨f, fs⟩
    · simp [normalize_audio, processFiles]
    · unfold normalize_audio
      exact (processFiles_chain (f :: fs).length (by simp) (f :: fs) 0 (by omega)
        hfrac hchain).1

/-- Witness for the amended claim C1 at a batch of two files with one halfway
time report each. -/
theorem progress_slots_and_monotone_witness :
    (∀ i : ℕ, ∀ hi : i <
        ([⟨none, ["Duration: 00:01:00.00".data, "time=00:00:30.00".data], true, 0⟩,
          ⟨none, ["Duration: 00:02:00.00".data, "time=00:00:30.00".data], true, 0⟩]
          : List FileSpec).length,
        ∀ p ∈ scanLoop 2 i none
          (([⟨none, ["Duration: 00:01:00.00".data, "time=00:00:30.00".data], true, 0⟩,
             ⟨none, ["Duration: 00:02:00.00".data, "time=00:00:30.00".data], true, 0⟩]
             : List FileSpec).get ⟨i, hi⟩).stream,
          (i : ℚ) / 2 ≤ p ∧ p < ((i : ℚ) + 1) / 2)
    ∧ List.Chain' (· ≤ ·)
        (normalize_audio
          [⟨none, ["Duration: 00:01:00.00".data, "time=00:00:30.00".data], true, 0⟩,
           ⟨none, ["Duration: 00:02:00.00".data, "time=00:00:30.00".data], true, 0⟩]).reports := by
  have hf1 : scanFracs none ["Duration: 00:01:00.00".data, "time=00:00:30.00".data]
      = [1/2] := by
    have h1 : duration_search ("Duration: 00:01:00.00".data) = some (0, 1, 0, 0) := by decide
    have h2 : time_search ("Duration: 00:01:00.00".data) = none := by decide
    have h3 : duration_search ("time=00:00:30.00".data) = none := by decide
    have h4 : time_search ("time=00:00:30.00".data) = some (0, 0, 30, 0) := by decide
    simp [scanFracs, lineDuration, lineFrac, h1, h2, h3, h4, pyTruthy, toSeconds]
    norm_num
  have hf2 : scanFracs none ["Duration: 00:02:00.00".data, "time=00:00:30.00".data]
      = [1/4] := by
    have h1 : duration_search ("Duration: 00:02:00.00".data) = some (0, 2, 0, 0) := by decide
    have h2 : time_search ("Duration: 00:02:00.00".data) = none := by decide
    have h3 : duration_search ("time=00:00:30.00".data) = none := by decide
    have h4 : time_search ("time=00:00:30.00".data) = some (0, 0, 30, 0) := by decide
    simp [scanFracs, lineDuration, lineFrac, h1, h2, h3, h4, pyTruthy, toSeconds]
    norm_num
  have h := progress_slots_and_monotone
    [⟨none, ["Duration: 00:01:00.00".data, "time=00:00:30.00".data], true, 0⟩,
     ⟨none, ["Duration: 00:02:00.00".data, "time=00:00:30.00".data], true, 0⟩]
    (by
      intro f hf x hx
      rcases List.mem_cons.1 hf with h | h
      · rw [h] at hx
        dsimp only at hx
        rw [hf1] at hx
        simp at hx
        rw [hx]
        norm_num
      · have hf2m : f = ⟨none, ["Duration: 00:02:00.00".data, "time=00:00:30.00".data],
            true, 0⟩ := by simpa using h
        rw [hf2m] at hx
        dsimp only at hx
        rw [hf2] at hx
        simp at hx
        rw [hx]
        norm_num)
    (by
      intro f hf
      rcases List.mem_cons.1 hf with h | h
      · rw [h]
        dsimp only
        rw [hf1]
        simp
      · have hf2m : f = ⟨none, ["Duration: 00:02:00.00".data, "time=00:00:30.00".data],
            true, 0⟩ := by simpa using h
        rw [hf2m]
        dsimp only
        rw [hf2]
        simp)
  simpa using h

/-- Claim C2: once the duration of the file at index i of N is established as
a nonzero d, every line matching the time pattern yields exactly one progress
update equal to i over N plus elapsed over d over N, the elapsed seconds being
hours times 3600 plus minutes times 60 plus seconds of the matched time; in
particular a batch of one file whose stream holds a one-minute duration line
followed by a thirty-second time line reports progress one half at that
line. -/
theorem time_line_single_update (N i : ℕ) (d : ℚ) (hd : d ≠ 0) (line : List Char)
    (g : ℕ × ℕ × ℕ × ℕ) (ht : time_search line = some g) :
    scanLoop N i (some d) [line] = [(i : ℚ) / (N : ℚ) + (toSeconds g / d) / (N : ℚ)]
    ∧ scanLoop 1 0 none ["Duration: 00:01:00.00".data, "time=00:00:30.00".data] = [1/2] := by
  constructor
  · have hdur : lineDuration (some d) line = some d := by
      unfold lineDuration
      rcases hs : duration_search line with _ | g2
      · rfl
      · have htr : pyTruthy (some d) = true := by simp [pyTruthy, hd]
        simp [htr]
    simp [scanLoop, hdur, lineProgress, ht, hd]
    ring
  · have h1 : duration_search ("Duration: 00:01:00.00".data) = some (0, 1, 0, 0) := by decide
    have h2 : time_search ("Duration: 00:01:00.00".data) = none := by decide
    have h3 : duration_search ("time=00:00:30.00".data) = none := by decide
    have h4 : time_search ("time=00:00:30.00".data) = some (0, 0, 30, 0) := by decide
    norm_num [scanLoop, lineDuration, lineProgress, h1, h2, h3, h4, pyTruthy, toSeconds]

/-- Witness for claim C2 at a sixty-second duration and a thirty-second time
line in a batch of one. -/
theorem time_line_single_update_witness :
    scanLoop 1 0 (some 60) ["time=00:00:30.00".data] =
      [(0 : ℚ) / ((1 : ℕ) : ℚ) + (toSeconds (0, 0, 30, 0) / 60) / ((1 : ℕ) : ℚ)]
    ∧ scanLoop 1 0 none ["Duration: 00:01:00.00".data, "time=00:00:30.00".data] = [1/2] :=
  time_line_single_update 1 0 60 (by norm_num) ("time=00:00:30.00".data) (0, 0, 30, 0)
    (by decide)

/-- Claim C3: when every file of the batch is processed to the end of its
loop body, that is no uncaught exception aborts the run, the last progress
value reported is exactly 1.0 whatever the per-file successes or failures
were, and nothing escapes normalize_audio. -/
theorem final_progress_is_one (files : List FileSpec)
    (h : ∀ f ∈ files, f.exc.all isCaught = true) :
    (normalize_audio files).reports.getLast? = some 1 ∧
      (normalize_audio files).raised = false :=
  processFiles_last files.length files 0 h

/-- Witness for claim C3 at a batch of two files, the second of which fails
to produce an output file. -/
theorem final_progress_is_one_witness :
    (normalize_audio [⟨none, [], true, 0⟩, ⟨none, [], false, 3⟩]).reports.getLast? = some 1 ∧
      (normalize_audio [⟨none, [], true, 0⟩, ⟨none, [], false, 3⟩]).raised = false :=
  final_progress_is_one [⟨none, [], true, 0⟩, ⟨none, [], false, 3⟩] (by decide)

/-- Claim C4: for a batch whose processes all start, the per-file outcome
notes are exactly the output-file existence flags, independently of every
exit code, every file is attempted, and the final reported progress is 1.0
even when some file produced no output. -/
theorem success_by_output_existence (files : List FileSpec)
    (h : ∀ f ∈ files, f.exc = none) :
    (normalize_audio files).outcomes = files.map FileSpec.outputExists ∧
      (normalize_audio files).reports.getLast? = some 1 := by
  constructor
  · exact processFiles_outcomes files.length files 0 h
  · refine (processFiles_last files.length files 0 ?_).1
    intro f hf
    rw [h f hf]
    rfl

/-- Witness for claim C4: file 2 of 3 produces no output file and is recorded
failed, file 1 has a nonzero exit code yet is recorded successful because its
output exists, file 3 is still attempted, and the final progress is 1.0. -/
theorem success_by_output_existence_witness :
    (normalize_audio
        [⟨none, [], true, 1⟩, ⟨none, [], false, 0⟩, ⟨none, [], true, 0⟩]).outcomes
      = [true, false, true] ∧
    (normalize_audio
        [⟨none, [], true, 1⟩, ⟨none, [], false, 0⟩, ⟨none, [], true, 0⟩]).reports.getLast?
      = some 1 := by
  have h := success_by_output_existence
    [⟨none, [], true, 1⟩, ⟨none, [], false, 0⟩, ⟨none, [], true, 0⟩] (by decide)
  simpa using h

/-- Claim C5 names the intended behaviour, but the code diverges: the except
clause at src/main.py line 96 names subprocess.CalledProcessError, which
subprocess.Popen never raises; a process that fails to start raises
FileNotFoundError, which is not caught. In a batch of two files whose first
process fails to start, the exception escapes normalize_audio, the second
file is never attempted and no progress value, in particular not the final
1.0, is ever reported. -/
theorem start_failure_aborts_batch :
    normalize_audio [⟨some PyError.fileNotFoundError, [], false, 0⟩, ⟨none, [], true, 0⟩]
      = ⟨[], [], true⟩ := by
  decide

/-- Claim C6 fails on the code as stated: when the first line matching the
duration pattern parses to zero seconds, the stored duration is zero, which
is falsy for the guard at src/main.py line 75, so a later duration-matching
line does change the stored duration, here from 0 to 60. -/
theorem duration_overwrite_counterexample :
    scanDur none ["Duration: 00:00:00.00".data] = some 0
    ∧ scanDur none ["Duration: 00:00:00.00".data, "Duration: 00:01:00.00".data] = some 60
    ∧ (0 : ℚ) ≠ 60 := by
  have h1 : duration_search ("Duration: 00:00:00.00".data) = some (0, 0, 0, 0) := by decide
  have h2 : duration_search ("Duration: 00:01:00.00".data) = some (0, 1, 0, 0) := by decide
  refine ⟨?_, ?_, by norm_num⟩
  · norm_num [scanDur, lineDuration, h1, pyTruthy, toSeconds]
  · norm_num [scanDur, lineDuration, h1, h2, pyTruthy, toSeconds]

/-- Claim C6 (amended): the first line matching the duration pattern sets the
stored duration to hours times 3600 plus minutes times 60 plus seconds of the
match, and a later duration-matching line never changes the stored duration
as long as that stored duration is nonzero; a stored duration of zero seconds
behaves like an absent one and can be overwritten. -/
theorem duration_update_policy (dur : Option ℚ) (line : List Char)
    (g : ℕ × ℕ × ℕ × ℕ) (hmatch : duration_search line = some g) :
    (dur = none → lineDuration dur line = some (toSeconds g))
    ∧ (∀ d : ℚ, dur = some d → d ≠ 0 → lineDuration dur line = dur) := by
  constructor
  · intro hn
    subst hn
    unfold lineDuration
    rw [hmatch]
    rfl
  · intro d hdur hd
    subst hdur
    unfold lineDuration
    rw [hmatch]
    have htr : pyTruthy (some d) = true := by simp [pyTruthy, hd]
    simp [htr]

/-- Witness for the amended claim C6: a one-minute duration line sets an
absent duration and leaves a nonzero stored duration unchanged. -/
theorem duration_update_policy_witness :
    lineDuration none ("Duration: 00:01:00.00".data) = some (toSeconds (0, 1, 0, 0))
    ∧ lineDuration (some 42) ("Duration: 00:01:00.00".data) = some 42 := by
  constructor
  · exact (duration_update_policy none ("Duration: 00:01:00.00".data) (0, 1, 0, 0)
      (by decide)).1 rfl
  · exact (duration_update_policy (some 42) ("Duration: 00:01:00.00".data) (0, 1, 0, 0)
      (by decide)).2 42 rfl (by norm_num)

/-- Claim C7: while no line matching the duration pattern has appeared, every
line matching the time pattern is ignored: the scan of a stream without
duration-matching lines emits no progress update at all. -/
theorem time_before_duration_ignored (N i : ℕ) (lines : List (List Char))
    (h : ∀ l ∈ lines, duration_search l = none) :
    scanLoop N i none lines = [] := by
  induction lines with
  | nil => rfl
  | cons line rest ih =>
    have hd : lineDuration none line = none := by
      unfold lineDuration
      rw [h line (List.mem_cons_self line rest)]
    unfold scanLoop
    rw [hd, lineProgress_falsy N i none line rfl]
    exact ih fun l hl => h l (List.mem_cons_of_mem line hl)

/-- Witness for claim C7 at a stream of two time lines and no duration
line. -/
theorem time_before_duration_ignored_witness :
    scanLoop 1 0 none ["time=00:00:30.00".data, "frame= 1 time=00:00:40.00".data] = [] :=
  time_before_duration_ignored 1 0
    ["time=00:00:30.00".data, "frame= 1 time=00:00:40.00".data] (by decide)

/-- Claim C8: the computed output path is the output directory joined with the
base name of the input with its extension replaced by mp3; for any extension
free of dots and slashes, the input slash x slash song dot extension with the
output directory slash y yields slash y slash song dot mp3. -/
theorem output_path_replaces_extension (ext : List Char)
    (hdot : '.' ∉ ext) (hsl : '/' ∉ ext) :
    output_file ("/x/song.".data ++ ext) ("/y".data) = "/y/song.mp3".data := by
  have hbase : basename ("/x/song.".data ++ ext) = "song.".data ++ ext := by
    unfold basename
    rw [rfindIdx_append_none '/' _ ext hsl]
    have hfind : rfindIdx '/' ("/x/song.".data) = some 2 := by decide
    rw [hfind]
    dsimp only
    rw [List.drop_append_of_le_length (by decide)]
    congr 1
  have hroot : splitextRoot ("song.".data ++ ext) = "song".data := by
    unfold splitextRoot
    rw [rfindIdx_append_none '.' _ ext hdot]
    have hfd : rfindIdx '.' ("song.".data) = some 4 := by decide
    rw [hfd]
    have hfs : rfindIdx '/' ("song.".data ++ ext) = none := by
      apply rfindIdx_eq_none
      intro hmem
      rcases List.mem_append.1 hmem with hm | hm
      · revert hm
        decide
      · exact hsl hm
    rw [hfs]
    dsimp only
    have htake : (("song.".data ++ ext).drop 0).take (4 - 0) = "song".data := by
      rw [List.drop_zero, List.take_append_of_le_length (by decide)]
      decide
    rw [htake]
    have hany : ("song".data).any (fun c => c ≠ '.') = true := by decide
    rw [hany]
    rw [if_pos rfl]
    rw [List.take_append_of_le_length (by decide)]
    decide
  unfold output_file
  rw [hbase, hroot]
  decide

/-- Witness for claim C8 at the wav extension of the spec example. -/
theorem output_path_replaces_extension_witness :
    output_file ("/x/song.wav".data) ("/y".data) = "/y/song.mp3".data := by
  have he : "/x/song.".data ++ "wav".data = "/x/song.wav".data := by decide
  rw [← he]
  exact output_path_replaces_extension ("wav".data) (by decide) (by decide)

/-- Claim C9: the argument list built for the external process is exactly the
binary, dash y, dash i, the input, dash af, the loudnorm filter parameterized
by the target loudness with the true-peak ceiling fixed at -1 and the
loudness-range target fixed at 11, dash acodec, the mp3 codec name, and the
output path, in that order, as the spec describes it. -/
theorem command_matches_spec (ffmpeg_path : String) (input_file : String)
    (target_lufs : String) (out : String) :
    command ffmpeg_path input_file target_lufs out =
      commandSpec ffmpeg_path input_file target_lufs out := by
  unfold command commandSpec loudnormFilterSpec
  simp [String.append_assoc]

/-- Claim C10: the stored duration is used as a divisor only when it is set
and nonzero. A duration line parsing to zero seconds stores the value zero,
scanning from a stored zero duration emits exactly what scanning with no
duration at all emits for every stream, and in particular a stream whose only
duration line is all zeros followed by a time line emits nothing. -/
theorem zero_duration_like_none (N i : ℕ) (lines : List (List Char)) :
    lineDuration none ("Duration: 00:00:00.00".data) = some 0
    ∧ scanLoop N i (some 0) lines = scanLoop N i none lines
    ∧ scanLoop 1 0 none ["Duration: 00:00:00.00".data, "time=00:00:30.00".data] = [] := by
  have h1 : duration_search ("Duration: 00:00:00.00".data) = some (0, 0, 0, 0) := by decide
  refine ⟨?_, ?_, ?_⟩
  · norm_num [lineDuration, h1, pyTruthy, toSeconds]
  · apply scanLoop_falsy_congr
    · simp [pyTruthy]
    · rfl
  · have h2 : time_search ("Duration: 00:00:00.00".data) = none := by decide
    have h3 : duration_search ("time=00:00:30.00".data) = none := by decide
    have h4 : time_search ("time=00:00:30.00".data) = some (0, 0, 30, 0) := by decide
    norm_num [scanLoop, lineDuration, lineProgress, h1, h2, h3, h4, pyTruthy, toSeconds]

end NormalSound
